import Mathlib

/-!
# Verification of the sfzlint semantic validation core

A shallow embedding of the sfzlint linter (jisaacstone/sfzlint), covering:

* the opcode identity normalizer `OpcodeIntRepl` (src/sfzlint/opcodes.py),
* the value validators (src/sfzlint/validators.py, src/sfzlint/spec.py),
* the document model `SFZ` / `Header` / `HeaderList`
  (src/sfzlint/parser.py, src/sfzlint/headers.py),
* the tree-walking validator `SFZValidator` (src/sfzlint/parser.py),
  including macro substitution, include loading and the deferred
  curve-cc queue.

Python strings become `String`/`List Char`; Python ints and floats both
become `Rat` (every numeric literal appearing in the rule data is an exact
decimal); dynamic-typing failures (`TypeError`) become explicit `Option`/
`Except` branches.  Regular-expression scanning is embedded as an explicit
left-to-right scanner proved below to preserve the character sequence.

Two functions that the walking code calls are absent from the snapshot of
the package (src/sfzlint/opcodes.py is an older, template-only revision
than its callers): the tuple-returning `OpcodeIntRepl.sub` used by
`cli.print_codes_in_path`, and `opcodes.validate_curvecc` used by
`SFZValidator._validate_curvecc`.  Those two are modelled from the spec
and are marked as such in their doc comments; everything else is a direct
translation of the source.
-/

set_option linter.unusedVariables false

namespace Sfzlint

/-- Sanitized token value (parser.py `_sanitize_token`): a Python `int`,
`float` or `Note` (all totally ordered numbers, embedded as `Rat`), or a
string.  -/
inductive Value where
  | num (q : Rat)
  | str (s : String)
deriving DecidableEq, Repr

/-- `str()` of a sanitized value, used for `$variable` substitution and
message formatting.  (Python renders floats with a decimal point; here a
non-integral rational is rendered as a fraction, which no claim relies
on.) -/
def valueStr : Value → String
  | .num q => if q.den = 1 then toString q.num else toString q
  | .str s => s

/-- Numeric value of a run of decimal digits, as computed by Python
`int()` on a digit string (leading zeros allowed). -/
def digitsToNat (ds : List Char) : Nat :=
  ds.foldl (fun acc c => 10 * acc + (c.toNat - 48)) 0

/-- Substring test, Python's `sub in s`. -/
def containsSub (s pat : String) : Bool :=
  (s.data.tails).any (fun t => pat.data.isPrefixOf t)

/-! ## The regex scan `([a-z]*)(\d+)` of `re.sub`

`re.sub(r'([a-z]*)(\d+)', repl, s)` scans `s` left to right for
non-overlapping matches of a (possibly empty) maximal lowercase-letter run
immediately followed by a nonempty maximal digit run.  `scanAux` is a
character-by-character state machine with the pending letter run `ls` and
pending digit run `ds` carried reversed. -/

/-- One piece of the scanned string: a character outside every match, or a
match with its letter run and digit run. -/
inductive RMatch where
  | raw (c : Char)
  | mat (ls ds : List Char)
deriving DecidableEq, Repr

def scanAux : List Char → List Char → List Char → List RMatch
  | ls, [], [] => ls.reverse.map .raw
  | ls, ds, [] => [.mat ls.reverse ds.reverse]
  | ls, [], c :: cs =>
    if c.isLower then scanAux (c :: ls) [] cs
    else if c.isDigit then scanAux ls [c] cs
    else ls.reverse.map .raw ++ (.raw c :: scanAux [] [] cs)
  | ls, ds, c :: cs =>
    if c.isDigit then scanAux ls (c :: ds) cs
    else
      .mat ls.reverse ds.reverse ::
        (if c.isLower then scanAux [c] [] cs else .raw c :: scanAux [] [] cs)

/-- Scan a string into raw characters and `(letters)(digits)` matches. -/
def scan (cs : List Char) : List RMatch := scanAux [] [] cs

/-- The characters covered by a list of pieces, in order. -/
def flatM : List RMatch → List Char
  | [] => []
  | .raw c :: r => c :: flatM r
  | .mat ls ds :: r => ls ++ ds ++ flatM r

/-! ## OpcodeIntRepl (src/sfzlint/opcodes.py, lines 66-103) -/

namespace OpcodeIntRepl

/-- `subs = ['N', 'X', 'Y']` indexed by the running match count. -/
def subsC (i : Nat) : Char := (['N', 'X', 'Y'].getD i 'N')

/-- `ignore = {'vel2', 'cutoff2', 'resonance2', 'wave2'}`, tested against
the full match text. -/
def ignoreSet (cs : List Char) : Bool :=
  ["vel2", "cutoff2", "resonance2", "wave2"].contains (String.mk cs)

/-- `pre.endswith('cc')`. -/
def endsCC (ls : List Char) : Bool :=
  match ls.reverse with
  | 'c' :: 'c' :: _ => true
  | _ => false

/-- Outcome of `OpcodeIntRepl.sub`: the substituted string, or the
`ValidationError` raised on a fourth index slot, or the
`ValidationWarning` raised on an out-of-range control code. -/
inductive Out where
  | ok (cs : List Char)
  | err (msg : String)
  | warn (msg : String)
deriving DecidableEq, Repr

/-- Prepend already-substituted text to the remaining outcome; an
exception raised later in the scan aborts the whole `re.sub`. -/
def ocons (pre : List Char) : Out → Out
  | .ok cs => .ok (pre ++ cs)
  | .err m => .err m
  | .warn m => .warn m

/-- `OpcodeIntRepl.__call__` applied to each match in turn, with the
running slot index `i`.  For each match: the ignore set is checked first
(no slot consumed); then `subs[index]` is fetched, raising the
"unexpected number" `ValidationError` on `IndexError`; then the control
code range check raises a `ValidationWarning` for digit values above 127.
The error message reproduces the source's missing `f` prefix on its
second half, which leaves the text `\x7bmatch.group()\x7d` literal. -/
def go (raw : String) : List RMatch → Nat → Out
  | [], _ => .ok []
  | .raw c :: r, i => ocons [c] (go raw r i)
  | .mat ls ds :: r, i =>
    if ignoreSet (ls ++ ds) then ocons (ls ++ ds) (go raw r i)
    else if i < 3 then
      if endsCC ls && decide (127 < digitsToNat ds) then
        .warn (String.mk ds ++ " is not a valid control code")
      else ocons (ls ++ [subsC i]) (go raw r (i + 1))
    else
      .err (raw ++ " is not a valid opcode: " ++
        "unexpected number at \x7bmatch.group()\x7d")

/-- `OpcodeIntRepl.sub(token)` = `re.sub(cls.re, cls(token), token.value)`. -/
def sub (token : String) : Out := go token (scan token.data) 0

/-- The non-ignored matches of a scan, i.e. the matches that consume a
placeholder slot, in scan order. -/
def nonIgnored (ms : List RMatch) : List (List Char × List Char) :=
  ms.filterMap fun
    | .raw _ => none
    | .mat ls ds => if ignoreSet (ls ++ ds) then none else some (ls, ds)

/-- A match whose letter run ends in `cc` and whose digit value exceeds
the canonical MIDI ceiling, the condition under which `__call__` raises
its `ValidationWarning`. -/
def ccViol (p : List Char × List Char) : Bool :=
  endsCC p.1 && decide (127 < digitsToNat p.2)

/-- Reference rendering of the substitution: ignored matches verbatim,
the `i`-th non-ignored match's digits replaced by the `i`-th placeholder
of `[N, X, Y]`, raw characters untouched. -/
def renderOk : List RMatch → Nat → List Char
  | [], _ => []
  | .raw c :: r, i => c :: renderOk r i
  | .mat ls ds :: r, i =>
    if ignoreSet (ls ++ ds) then ls ++ ds ++ renderOk r i
    else ls ++ subsC i :: renderOk r (i + 1)

end OpcodeIntRepl

/-! ## The spec-modelled tuple-returning normalizer

`cli.print_codes_in_path` (src/sfzlint/cli.py, line 43) destructures
`opcode, _ = opcodes.OpcodeIntRepl.sub(raw_oc)` and
`validators.Choice` calls `opcodes.OpcodeIntRepl.sub_str`; the revision
of `OpcodeIntRepl` providing that interface is absent from
src/sfzlint/opcodes.py (which holds the older, template-only revision
embedded above). -/

namespace Normalize

open OpcodeIntRepl (subsC ignoreSet endsCC)

/-- Modelled from the spec: the index-binding half of the opcode identity
normalizer, absent from src/sfzlint/opcodes.py.  Per spec §4.2, each
non-ignored `(letters)(digits)` match substitutes the digit run with the
next unused placeholder of `[N, X, Y]` and records the digit run under
that placeholder's key; a fourth slot is a hard error, and a placeholder
whose letter run ends in `cc` is range checked against the ceiling of the
active version filter (127 canonical, 137 for SFZ v2, 155 for ARIA). -/
def go (ceil : Nat) : List RMatch → Nat →
    Except String (List Char × List (Char × String))
  | [], _ => .ok ([], [])
  | .raw c :: r, i => (go ceil r i).map fun p => (c :: p.1, p.2)
  | .mat ls ds :: r, i =>
    if ignoreSet (ls ++ ds) then
      (go ceil r i).map fun p => (ls ++ ds ++ p.1, p.2)
    else if i < 3 then
      if endsCC ls && decide (ceil < digitsToNat ds) then
        .error (String.mk ds ++ " is not a valid control code")
      else
        (go ceil r (i + 1)).map fun p =>
          (ls ++ subsC i :: p.1, (subsC i, String.mk ds) :: p.2)
    else .error "is not a valid opcode: unexpected number"

/-- Modelled from the spec: `normalize(name)` yields the canonical
template and the ordered index bindings (spec §4.2, §8 property 1). -/
def normalize (ceil : Nat) (name : String) :
    Except String (String × List (Char × String)) :=
  (go ceil (scan name.data) 0).map fun p => (String.mk p.1, p.2)

/-- First binding for a placeholder character, Python dict lookup. -/
def lookupC : List (Char × String) → Char → Option String
  | [], _ => none
  | (c, ds) :: r, c' => if c = c' then some ds else lookupC r c'

/-- Substitute every bound placeholder character of the template by its
recorded digit run (spec §8 property 1: "re-substituting the bindings
into the template's placeholders"). -/
def resubL (bs : List (Char × String)) : List Char → List Char
  | [] => []
  | c :: cs =>
    match lookupC bs c with
    | some ds => ds.data ++ resubL bs cs
    | none => c :: resubL bs cs

/-- String version of `resubL`. -/
def resub (t : String) (bs : List (Char × String)) : String :=
  String.mk (resubL bs t.data)

end Normalize

/-! ## Scan facts -/

theorem flatM_map_raw (l : List Char) : flatM (l.map .raw) = l := by
  induction l with
  | nil => rfl
  | cons c r ih => simp [flatM, ih]

theorem flatM_map_raw_reverse (l : List Char) :
    flatM ((l.map RMatch.raw).reverse) = l.reverse := by
  rw [← List.map_reverse, flatM_map_raw]

theorem flatM_append (a b : List RMatch) :
    flatM (a ++ b) = flatM a ++ flatM b := by
  induction a with
  | nil => rfl
  | cons m r ih => cases m <;> simp [flatM, ih]

theorem flatM_scanAux (cs : List Char) : ∀ ls ds,
    flatM (scanAux ls ds cs) = ls.reverse ++ ds.reverse ++ cs := by
  induction cs with
  | nil =>
    intro ls ds
    cases ds with
    | nil => simp [scanAux, flatM_map_raw, flatM_map_raw_reverse, flatM]
    | cons d ds' => simp [scanAux, flatM]
  | cons c cs ih =>
    intro ls ds
    cases ds with
    | nil =>
      by_cases hl : c.isLower
      · simp [scanAux, hl, ih]
      · by_cases hd : c.isDigit
        · simp [scanAux, hl, hd, ih]
        · simp [scanAux, hl, hd, flatM_append, flatM_map_raw,
            flatM_map_raw_reverse, flatM, ih]
    | cons d ds' =>
      by_cases hd : c.isDigit
      · simp [scanAux, hd, ih]
      · by_cases hl : c.isLower
        · simp [scanAux, hd, hl, flatM, ih]
        · simp [scanAux, hd, hl, flatM, ih]

/-- The regex scan is a partition of the input: the pieces cover exactly
the original character sequence. -/
theorem flatM_scan (cs : List Char) : flatM (scan cs) = cs := by
  simpa using flatM_scanAux cs [] []

namespace OpcodeIntRepl

theorem ocons_eq_err (pre : List Char) (o : Out) (m : String) :
    ocons pre o = .err m ↔ o = .err m := by
  cases o <;> simp [ocons]

/-- The `ValidationError` message raised on a fourth index slot; the
second half of the source f-string lacks the `f` prefix, so the braces
are literal. -/
def errMsg (raw : String) : String :=
  raw ++ " is not a valid opcode: " ++
    "unexpected number at \x7bmatch.group()\x7d"

theorem go_spec (raw : String) : ∀ (ms : List RMatch) (i : Nat), i ≤ 3 →
    (∀ p ∈ (nonIgnored ms).take (3 - i), ccViol p = false) →
    ((nonIgnored ms).length ≤ 3 - i → go raw ms i = .ok (renderOk ms i))
    ∧ (3 - i < (nonIgnored ms).length ↔ go raw ms i = .err (errMsg raw)) := by
  intro ms
  induction ms with
  | nil =>
    intro i hi hcc
    refine ⟨fun _ => rfl, ?_⟩
    simp [nonIgnored, go]
  | cons m r ih =>
    intro i hi hcc
    cases m with
    | raw c =>
      have h := ih i hi (by simpa [nonIgnored] using hcc)
      constructor
      · intro hlen
        have := h.1 (by simpa [nonIgnored] using hlen)
        simp [go, renderOk, this, ocons]
      · rw [show nonIgnored (RMatch.raw c :: r) = nonIgnored r from by
          simp [nonIgnored]]
        rw [show go raw (RMatch.raw c :: r) i = ocons [c] (go raw r i) from rfl]
        rw [ocons_eq_err]
        exact h.2
    | mat ls ds =>
      by_cases hig : ignoreSet (ls ++ ds)
      · have h := ih i hi (by simpa [nonIgnored, hig] using hcc)
        constructor
        · intro hlen
          have := h.1 (by simpa [nonIgnored, hig] using hlen)
          simp [go, renderOk, hig, this, ocons]
        · rw [show nonIgnored (RMatch.mat ls ds :: r) = nonIgnored r from by
            simp [nonIgnored, hig]]
          rw [show go raw (RMatch.mat ls ds :: r) i
              = ocons (ls ++ ds) (go raw r i) from by simp [go, hig]]
          rw [ocons_eq_err]
          exact h.2
      · have hni : nonIgnored (RMatch.mat ls ds :: r)
            = (ls, ds) :: nonIgnored r := by simp [nonIgnored, hig]
        by_cases hlt : i < 3
        · have htk : 1 ≤ 3 - i := by omega
          have h31 : 3 - i = (3 - (i + 1)) + 1 := by omega
          have hhd : ccViol (ls, ds) = false := by
            apply hcc
            rw [hni, h31, List.take_succ_cons]
            exact List.mem_cons_self _ _
          have hcc' : ∀ p ∈ (nonIgnored r).take (3 - (i + 1)),
              ccViol p = false := by
            intro p hp
            apply hcc
            rw [hni, h31, List.take_succ_cons]
            exact List.mem_cons_of_mem _ hp
          have h := ih (i + 1) (by omega) hcc'
          have hviol : (endsCC ls && decide (127 < digitsToNat ds)) = false := by
            simpa [ccViol] using hhd
          have hgo : go raw (RMatch.mat ls ds :: r) i
              = ocons (ls ++ [subsC i]) (go raw r (i + 1)) := by
            simp [go, hig, hlt, hviol]
          constructor
          · intro hlen
            rw [hni] at hlen
            simp only [List.length_cons] at hlen
            have := h.1 (by omega)
            simp [hgo, renderOk, hig, this, ocons]
          · rw [hni, hgo, ocons_eq_err]
            simp only [List.length_cons]
            constructor
            · intro hl
              exact h.2.mp (by omega)
            · intro he
              have := h.2.mpr he
              omega
        · have hieq : i = 3 := by omega
          have hgo : go raw (RMatch.mat ls ds :: r) i = .err (errMsg raw) := by
            simp [go, hig, hlt, errMsg]
          constructor
          · intro hlen
            rw [hni] at hlen
            simp only [List.length_cons] at hlen
            omega
          · rw [hni]
            simp only [List.length_cons]
            constructor
            · intro _; exact hgo
            · intro _; omega

end OpcodeIntRepl

namespace Normalize

open OpcodeIntRepl (subsC ignoreSet endsCC)

/-- Placeholder characters of spec §4.2. -/
def isPh (c : Char) : Prop := c = 'N' ∨ c = 'X' ∨ c = 'Y'

instance (c : Char) : Decidable (isPh c) := by
  unfold isPh
  infer_instance

theorem subsC_isPh (j : Nat) : isPh (subsC j) := by
  match j with
  | 0 => exact Or.inl rfl
  | 1 => exact Or.inr (Or.inl rfl)
  | 2 => exact Or.inr (Or.inr rfl)
  | n + 3 => exact Or.inl rfl

theorem subsC_inj {j i : Nat} (hj : j < 3) (hi : i < 3)
    (hne : j ≠ i) : subsC j ≠ subsC i := by
  interval_cases j <;> interval_cases i <;> simp_all [subsC]

theorem lookupC_eq_none (bs : List (Char × String)) (c : Char)
    (h : ∀ q ∈ bs, q.1 ≠ c) : lookupC bs c = none := by
  induction bs with
  | nil => rfl
  | cons q r ih =>
    have h1 := h q (List.mem_cons_self _ _)
    simp only [lookupC, if_neg h1]
    exact ih fun q hq => h q (List.mem_cons_of_mem _ hq)

theorem lookupC_append (pre bs : List (Char × String)) (c : Char)
    (h : ∀ q ∈ pre, q.1 ≠ c) :
    lookupC (pre ++ bs) c = lookupC bs c := by
  induction pre with
  | nil => rfl
  | cons q r ih =>
    have h1 := h q (List.mem_cons_self _ _)
    simp only [List.cons_append, lookupC, if_neg h1]
    exact ih fun q hq => h q (List.mem_cons_of_mem _ hq)

theorem resubL_append (bs : List (Char × String)) (a b : List Char) :
    resubL bs (a ++ b) = resubL bs a ++ resubL bs b := by
  induction a with
  | nil => rfl
  | cons c r ih =>
    simp only [List.cons_append, resubL]
    cases lookupC bs c <;> simp [ih]

/-- `resubL` fixes any character sequence free of the bindings' keys. -/
theorem resubL_id (bs : List (Char × String)) (cs : List Char)
    (h : ∀ c ∈ cs, ∀ q ∈ bs, q.1 ≠ c) : resubL bs cs = cs := by
  induction cs with
  | nil => rfl
  | cons c r ih =>
    have hn := lookupC_eq_none bs c (h c (List.mem_cons_self _ _))
    simp only [resubL, hn]
    rw [ih fun c hc => h c (List.mem_cons_of_mem _ hc)]

theorem go_resub (ceil : Nat) : ∀ (ms : List RMatch) (i : Nat)
    (t : List Char) (bs : List (Char × String)),
    go ceil ms i = .ok (t, bs) →
    (∀ c ∈ flatM ms, ¬ isPh c) →
    (∀ q ∈ bs, ∃ j, i ≤ j ∧ j < 3 ∧ q.1 = subsC j)
    ∧ ∀ pre : List (Char × String),
        (∀ q ∈ pre, ∃ j, j < i ∧ q.1 = subsC j) →
        resubL (pre ++ bs) t = flatM ms := by
  intro ms
  induction ms with
  | nil =>
    intro i t bs hok hph
    simp only [go, Except.ok.injEq, Prod.mk.injEq] at hok
    obtain ⟨h1, h2⟩ := hok
    subst h1; subst h2
    exact ⟨by simp, fun pre hpre => rfl⟩
  | cons m r ih =>
    intro i t bs hok hph
    cases m with
    | raw c =>
      simp only [go] at hok
      obtain ⟨⟨t', bs'⟩, hgo, heq⟩ : ∃ p, go ceil r i = .ok p
          ∧ (c :: p.1, p.2) = (t, bs) := by
        cases hg : go ceil r i with
        | error e => rw [hg] at hok; exact absurd hok (by simp [Except.map])
        | ok p => exact ⟨p, rfl, by rw [hg] at hok; simpa [Except.map] using hok⟩
      obtain ⟨rfl, rfl⟩ : c :: t' = t ∧ bs' = bs := by
        injection heq with h1 h2; exact ⟨h1, h2⟩
      have hphr : ∀ x ∈ flatM r, ¬ isPh x := fun x hx =>
        hph x (by simp [flatM, hx])
      have hphc : ¬ isPh c := hph c (by simp [flatM])
      obtain ⟨hkeys, hres⟩ := ih i t' bs' hgo hphr
      refine ⟨hkeys, fun pre hpre => ?_⟩
      have hnone : lookupC (pre ++ bs') c = none := by
        apply lookupC_eq_none
        intro q hq
        rcases List.mem_append.mp hq with h | h
        · obtain ⟨j, _, hj⟩ := hpre q h
          rw [hj]; intro hc; exact hphc (hc ▸ subsC_isPh j)
        · obtain ⟨j, _, _, hj⟩ := hkeys q h
          rw [hj]; intro hc; exact hphc (hc ▸ subsC_isPh j)
      simp only [resubL, hnone, flatM]
      rw [hres pre hpre]
    | mat ls ds =>
      have hphls : ∀ x ∈ ls, ¬ isPh x := fun x hx =>
        hph x (by simp [flatM, hx])
      have hphds : ∀ x ∈ ds, ¬ isPh x := fun x hx =>
        hph x (by simp [flatM, hx])
      have hphr : ∀ x ∈ flatM r, ¬ isPh x := fun x hx =>
        hph x (by simp [flatM, hx])
      by_cases hig : ignoreSet (ls ++ ds)
      · simp only [go, hig, if_pos] at hok
        obtain ⟨⟨t', bs'⟩, hgo, heq⟩ : ∃ p, go ceil r i = .ok p
            ∧ (ls ++ ds ++ p.1, p.2) = (t, bs) := by
          cases hg : go ceil r i with
          | error e => rw [hg] at hok; exact absurd hok (by simp [Except.map])
          | ok p =>
            exact ⟨p, rfl, by rw [hg] at hok; simpa [Except.map] using hok⟩
        obtain ⟨rfl, rfl⟩ : ls ++ ds ++ t' = t ∧ bs' = bs := by
          injection heq with h1 h2; exact ⟨h1, h2⟩
        obtain ⟨hkeys, hres⟩ := ih i t' bs' hgo hphr
        refine ⟨hkeys, fun pre hpre => ?_⟩
        have hid : ∀ c ∈ ls ++ ds, ∀ q ∈ pre ++ bs', q.1 ≠ c := by
          intro c hc q hq
          have hphx : ¬ isPh c := by
            rcases List.mem_append.mp hc with h | h
            exacts [hphls c h, hphds c h]
          rcases List.mem_append.mp hq with h | h
          · obtain ⟨j, _, hj⟩ := hpre q h
            rw [hj]; intro hcq; exact hphx (hcq ▸ subsC_isPh j)
          · obtain ⟨j, _, _, hj⟩ := hkeys q h
            rw [hj]; intro hcq; exact hphx (hcq ▸ subsC_isPh j)
        rw [show ls ++ ds ++ t' = (ls ++ ds) ++ t' from by simp]
        rw [resubL_append, resubL_id _ _ hid, hres pre hpre]
        simp [flatM]
      · by_cases hlt : i < 3
        · by_cases hviol : (endsCC ls && decide (ceil < digitsToNat ds)) = true
          · simp [go, hig, hlt, hviol] at hok
          · simp only [go, hig, if_neg, hlt, if_pos, hviol,
              Bool.not_eq_true] at hok
            obtain ⟨⟨t', bs'⟩, hgo, heq⟩ : ∃ p, go ceil r (i + 1) = .ok p
                ∧ (ls ++ subsC i :: p.1, (subsC i, String.mk ds) :: p.2)
                  = (t, bs) := by
              cases hg : go ceil r (i + 1) with
              | error e =>
                rw [hg] at hok; exact absurd hok (by simp [Except.map])
              | ok p =>
                exact ⟨p, rfl, by rw [hg] at hok; simpa [Except.map] using hok⟩
            obtain ⟨rfl, rfl⟩ : ls ++ subsC i :: t' = t
                ∧ (subsC i, String.mk ds) :: bs' = bs := by
              injection heq with h1 h2; exact ⟨h1, h2⟩
            obtain ⟨hkeys, hres⟩ := ih (i + 1) t' bs' hgo hphr
            constructor
            · intro q hq
              rcases List.mem_cons.mp hq with h | h
              · exact ⟨i, le_refl i, hlt, by rw [h]⟩
              · obtain ⟨j, hj1, hj2, hj3⟩ := hkeys q h
                exact ⟨j, by omega, hj2, hj3⟩
            · intro pre hpre
              have hid : ∀ c ∈ ls, ∀ q ∈ pre ++ (subsC i, String.mk ds) :: bs',
                  q.1 ≠ c := by
                intro c hc q hq
                have hphx : ¬ isPh c := hphls c hc
                rcases List.mem_append.mp hq with h | h
                · obtain ⟨j, _, hj⟩ := hpre q h
                  rw [hj]; intro hcq; exact hphx (hcq ▸ subsC_isPh j)
                · rcases List.mem_cons.mp h with h | h
                  · rw [h]; intro hcq; exact hphx (hcq ▸ subsC_isPh i)
                  · obtain ⟨j, _, _, hj⟩ := hkeys q h
                    rw [hj]; intro hcq; exact hphx (hcq ▸ subsC_isPh j)
              rw [show ls ++ subsC i :: t' = ls ++ ([subsC i] ++ t') from by
                simp]
              rw [resubL_append, resubL_append, resubL_id _ _ hid]
              have hpre_ne : ∀ q ∈ pre, q.1 ≠ subsC i := by
                intro q hq
                obtain ⟨j, hj1, hj2⟩ := hpre q hq
                rw [hj2]
                exact subsC_inj (by omega) hlt (by omega)
              have hmid : resubL (pre ++ (subsC i, String.mk ds) :: bs')
                  [subsC i] = ds := by
                simp only [resubL]
                rw [lookupC_append _ _ _ hpre_ne]
                simp [lookupC]
              rw [hmid]
              have hpre' : ∀ q ∈ pre ++ [(subsC i, String.mk ds)],
                  ∃ j, j < i + 1 ∧ q.1 = subsC j := by
                intro q hq
                rcases List.mem_append.mp hq with h | h
                · obtain ⟨j, hj1, hj2⟩ := hpre q h
                  exact ⟨j, by omega, hj2⟩
                · rcases List.mem_singleton.mp h with rfl
                  exact ⟨i, by omega, rfl⟩
              have := hres (pre ++ [(subsC i, String.mk ds)]) hpre'
              rw [List.append_assoc] at this
              simp only [List.singleton_append] at this
              rw [this]
              simp [flatM]
        · simp [go, hig, hlt] at hok

end Normalize

/-! ## Claims C1, C3, C6 -/

/-- C1: for every opcode name containing index-bearing numeric runs, the
opcode identity normalizer returns a canonical template together with
index bindings (first non-ignored digit run bound to `N`, second to `X`,
third to `Y`) such that substituting each binding's digits back into its
placeholder in the template reproduces the original name; in particular,
normalizing `eq3_bwcc25` yields the template `eqN_bwccX` with bindings
`N = 3` and `X = 25`.  (The normalizer is modelled from the spec because
the tuple-returning revision of `OpcodeIntRepl.sub` is absent from
src/sfzlint/opcodes.py; the round trip requires the name to be free of
the placeholder characters themselves, which every lowercase opcode name
is.) -/
theorem C1_normalize_round_trip :
    (∀ (ceil : Nat) (name : String) (t : String)
        (bs : List (Char × String)),
        Normalize.normalize ceil name = .ok (t, bs) →
        (∀ c ∈ name.data, ¬ Normalize.isPh c) →
        Normalize.resub t bs = name)
    ∧ Normalize.normalize 127 "eq3_bwcc25"
        = .ok ("eqN_bwccX", [('N', "3"), ('X', "25")]) := by
  constructor
  · intro ceil name t bs hok hph
    simp only [Normalize.normalize] at hok
    obtain ⟨⟨tl, bs'⟩, hgo, heq⟩ :
        ∃ p, Normalize.go ceil (scan name.data) 0 = .ok p
          ∧ (String.mk p.1, p.2) = (t, bs) := by
      cases hg : Normalize.go ceil (scan name.data) 0 with
      | error e => rw [hg] at hok; exact absurd hok (by simp [Except.map])
      | ok p => exact ⟨p, rfl, by rw [hg] at hok; simpa [Except.map] using hok⟩
    obtain ⟨rfl, rfl⟩ : String.mk tl = t ∧ bs' = bs := by
      injection heq with h1 h2; exact ⟨h1, h2⟩
    have hph' : ∀ c ∈ flatM (scan name.data), ¬ Normalize.isPh c := by
      rw [flatM_scan]; exact hph
    have h := (Normalize.go_resub ceil (scan name.data) 0 tl bs' hgo hph').2
      [] (by simp)
    simp only [List.nil_append] at h
    rw [flatM_scan] at h
    show String.mk (Normalize.resubL bs' tl) = name
    rw [h]
  · rfl

/-- Closed witness for `C1_normalize_round_trip`: the round trip at the
concrete example `eq3_bwcc25`. -/
theorem C1_normalize_round_trip_witness :
    Normalize.resub "eqN_bwccX" [('N', "3"), ('X', "25")] = "eq3_bwcc25" :=
  C1_normalize_round_trip.1 127 "eq3_bwcc25" "eqN_bwccX"
    [('N', "3"), ('X', "25")] C1_normalize_round_trip.2 (by decide)

/-- C3 (code_bug evidence): during opcode-name normalization the control
code range check of src/sfzlint/opcodes.py uses the fixed ceiling 127 and
no version filter at all (`OpcodeIntRepl.sub` takes no version argument),
so `amplitude_oncc140` — which the repository's own test
`tests/test_valid.py::test_aria_control_code` expects to validate with no
diagnostics — raises the `ValidationWarning` "140 is not a valid control
code", and even 128 (valid for SFZ v2 per the claim) is rejected. -/
theorem C3_cc_ceiling_is_always_127 :
    OpcodeIntRepl.sub "amplitude_oncc140"
      = .warn "140 is not a valid control code"
    ∧ OpcodeIntRepl.sub "amplitude_oncc128"
      = .warn "128 is not a valid control code" := by
  exact ⟨rfl, rfl⟩

/-- C6: normalization substitutes at most three numeric index runs using
the placeholders `N`, `X`, `Y` in left-to-right order, leaves matches in
the ignore set textually unchanged without consuming a placeholder slot
(visible in `renderOk`), and raises the hard validation error whose
message contains "is not a valid opcode: unexpected number" exactly when
a fourth non-ignored digit-bearing match is encountered.  The hypothesis
excludes control-code range violations among the first three slots, which
would abort the scan with a `ValidationWarning` before a fourth match is
reached. -/
theorem C6_placeholder_slots (name : String)
    (hcc : ∀ p ∈ (OpcodeIntRepl.nonIgnored (scan name.data)).take 3,
        OpcodeIntRepl.ccViol p = false) :
    ((OpcodeIntRepl.nonIgnored (scan name.data)).length ≤ 3 →
        OpcodeIntRepl.sub name
          = .ok (OpcodeIntRepl.renderOk (scan name.data) 0))
    ∧ (4 ≤ (OpcodeIntRepl.nonIgnored (scan name.data)).length ↔
        OpcodeIntRepl.sub name = .err (OpcodeIntRepl.errMsg name)) := by
  have h := OpcodeIntRepl.go_spec name (scan name.data) 0 (by omega)
    (by simpa using hcc)
  exact ⟨fun hl => h.1 (by simpa using hl), by
    rw [show (4 ≤ (OpcodeIntRepl.nonIgnored (scan name.data)).length)
        = (3 - 0 < (OpcodeIntRepl.nonIgnored (scan name.data)).length) from by
      simp; omega]
    exact h.2⟩

/-- Closed witness for `C6_placeholder_slots`: a fourth non-ignored match
raises the hard error, and an ignore-set match does not consume a slot. -/
theorem C6_placeholder_slots_witness :
    OpcodeIntRepl.sub "a1b2c3d4" = .err (OpcodeIntRepl.errMsg "a1b2c3d4")
    ∧ OpcodeIntRepl.sub "eq1_vel2gain2x3"
      = .ok (OpcodeIntRepl.renderOk (scan "eq1_vel2gain2x3".data) 0) :=
  ⟨(C6_placeholder_slots "a1b2c3d4" (by decide)).2.mp (by decide),
   (C6_placeholder_slots "eq1_vel2gain2x3" (by decide)).1 (by decide)⟩

/-! ## Validators (src/sfzlint/validators.py) -/

/-- Python's `a <= b` on sanitized values: defined between two numbers or
two strings, a `TypeError` (modelled as `none`) otherwise. -/
def vle : Value → Value → Option Bool
  | .num a, .num b => some (decide (a ≤ b))
  | .str a, .str b => some (decide (a ≤ b))
  | _, _ => none

namespace Range

/-- `Range.validate` (src/sfzlint/validators.py, lines 31-44):
`self.low <= value <= self.high` chains with short-circuit, and the
`except TypeError` branch returns the "cannot compare" message. -/
def validate (low high value : Value) : Option String :=
  match vle low value with
  | none =>
    some ("cannot compare " ++ valueStr value ++ " with "
      ++ valueStr low ++ ", " ++ valueStr high)
  | some false =>
    some (valueStr value ++ " not in range " ++ valueStr low
      ++ " to " ++ valueStr high)
  | some true =>
    match vle value high with
    | none =>
      some ("cannot compare " ++ valueStr value ++ " with "
        ++ valueStr low ++ ", " ++ valueStr high)
    | some false =>
      some (valueStr value ++ " not in range " ++ valueStr low
        ++ " to " ++ valueStr high)
    | some true => none

end Range

/-- C10: the `Range` validator is total over arbitrary sanitized values —
it returns `none` exactly when both chained comparisons succeed and hold,
the "not in range" message when a comparison succeeds but is violated
(Python's chain short-circuits, so a failing first comparison never
raises), and the "cannot compare" message, instead of an exception, when
a needed comparison is undefined (e.g. a string against numeric
bounds). -/
theorem C10_range_total (low high value : Value) :
    (Range.validate low high value = none ↔
      vle low value = some true ∧ vle value high = some true)
    ∧ ((vle low value = some false
        ∨ (vle low value = some true ∧ vle value high = some false)) →
      Range.validate low high value
        = some (valueStr value ++ " not in range " ++ valueStr low
            ++ " to " ++ valueStr high))
    ∧ ((vle low value = none
        ∨ (vle low value = some true ∧ vle value high = none)) →
      Range.validate low high value
        = some ("cannot compare " ++ valueStr value ++ " with "
            ++ valueStr low ++ ", " ++ valueStr high)) := by
  unfold Range.validate
  rcases h1 : vle low value with _ | b1
  · refine ⟨by simp, ?_, by simp⟩
    rintro (h | ⟨h, -⟩) <;> simp_all
  · cases b1
    · refine ⟨by simp, by simp, ?_⟩
      rintro (h | ⟨h, -⟩) <;> simp_all
    · rcases h2 : vle value high with _ | b2
      · refine ⟨by simp, ?_, by simp⟩
        rintro (h | ⟨-, h⟩) <;> simp_all
      · cases b2
        · refine ⟨by simp, by simp, ?_⟩
          rintro (h | ⟨-, h⟩) <;> simp_all
        · exact ⟨by simp, by rintro (h | ⟨-, h⟩) <;> simp_all,
            by rintro (h | ⟨-, h⟩) <;> simp_all⟩

/-- Closed witness for `C10_range_total`: a string value against the
numeric bounds of `key` yields the "cannot compare" message rather than
an exception, and an in-range number yields `none`. -/
theorem C10_range_total_witness :
    Range.validate (.num 0) (.num 127) (.str "x")
      = some "cannot compare x with 0, 127"
    ∧ Range.validate (.num 0) (.num 127) (.num 60) = none :=
  ⟨(C10_range_total (.num 0) (.num 127) (.str "x")).2.2 (Or.inl rfl),
   (C10_range_total (.num 0) (.num 127) (.num 60)).1.mpr
     ⟨by decide, by decide⟩⟩

/-! ## The document model (src/sfzlint/parser.py, src/sfzlint/headers.py) -/

/-- A `Header`: the tag plus an insertion-ordered, lowercase-keyed
mapping from opcode name to sanitized value.  (The snapshot's
headers.py `Header` stores the tag as `name`; its callers in parser.py
read it as `token`; the single field below plays both roles.) -/
structure Header where
  token : String
  entries : List (String × Value)
deriving DecidableEq, Repr

/-- `dict.__getitem__`-style lookup on a header's entries. -/
def slookup : List (String × Value) → String → Option Value
  | [], _ => none
  | (k, v) :: r, k' => if k = k' then some v else slookup r k'

/-- `dict.__setitem__`: overwrite in place, else append. -/
def updateEntry : List (String × Value) → String → Value →
    List (String × Value)
  | [], k, v => [(k, v)]
  | (k', v') :: r, k, v =>
    if k' = k then (k, v) :: r else (k', v') :: updateEntry r k v

/-- Lookup in a `Value`-keyed association map (a Python dict keyed by
sanitized values). -/
def alookup : List (Value × Header) → Value → Option Header
  | [], _ => none
  | (k, h) :: r, k' => if k = k' then some h else alookup r k'

/-- Dict insertion with overwrite, `d[k] = h`. -/
def upsert : List (Value × Header) → Value → Header →
    List (Value × Header)
  | [], k, h => [(k, h)]
  | (k', h') :: r, k, h =>
    if k' = k then (k, h) :: r else (k', h') :: upsert r k h

/-- `SFZ.curves` (src/sfzlint/parser.py, lines 80-83): the dict
comprehension `{h['curve_index'].value: h for h in self.headers if
h.token == 'curve' and 'curve_index' in h}`, built left to right with
later headers overwriting earlier ones. -/
def curvesMap (hs : List Header) : List (Value × Header) :=
  hs.foldl
    (fun acc h =>
      if h.token = "curve" then
        match slookup h.entries "curve_index" with
        | some v => upsert acc v h
        | none => acc
      else acc)
    []

/-- The membership test of a curve header keyed at `k`. -/
def isCurveAt (k : Value) (h : Header) : Bool :=
  h.token = "curve" && slookup h.entries "curve_index" == some k

theorem alookup_upsert_self (acc : List (Value × Header)) (k : Value)
    (h : Header) : alookup (upsert acc k h) k = some h := by
  induction acc with
  | nil => simp [upsert, alookup]
  | cons p r ih =>
    by_cases hk : p.1 = k
    · simp [upsert, hk, alookup]
    · simp [upsert, hk, alookup, ih]

theorem alookup_upsert_ne (acc : List (Value × Header)) (k k' : Value)
    (h : Header) (hne : k ≠ k') :
    alookup (upsert acc k h) k' = alookup acc k' := by
  induction acc with
  | nil => simp [upsert, alookup, hne]
  | cons p r ih =>
    by_cases hk : p.1 = k
    · simp [upsert, hk, alookup, hne]
    · simp [upsert, hk, alookup, ih]

theorem curvesFold_lookup (k : Value) : ∀ (hs : List Header)
    (acc : List (Value × Header)),
    alookup
      (hs.foldl
        (fun acc h =>
          if h.token = "curve" then
            match slookup h.entries "curve_index" with
            | some v => upsert acc v h
            | none => acc
          else acc)
        acc) k
    = ((hs.filter (isCurveAt k)).getLast?).orElse (fun _ => alookup acc k) := by
  intro hs
  induction hs with
  | nil => intro acc; simp [Option.orElse]
  | cons h r ih =>
    intro acc
    by_cases hc : h.token = "curve"
    · cases hv : slookup h.entries "curve_index" with
      | none =>
        have : isCurveAt k h = false := by simp [isCurveAt, hc, hv]
        simp only [List.foldl_cons, List.filter_cons, this, hc, hv,
          if_true, Bool.false_eq_true, if_false]
        exact ih acc
      | some v =>
        by_cases hk : v = k
        · subst hk
          have hat : isCurveAt v h = true := by simp [isCurveAt, hc, hv]
          simp only [List.foldl_cons, List.filter_cons, hat, hc, hv, if_true]
          rw [ih (upsert acc v h)]
          rw [alookup_upsert_self]
          cases hl : (r.filter (isCurveAt v)).getLast? with
          | none => simp [hl, Option.orElse, List.getLast?_cons, hl]
          | some h' => simp [hl, Option.orElse, List.getLast?_cons, hl]
        · have hat : isCurveAt k h = false := by
            simp [isCurveAt, hc, hv, hk]
          simp only [List.foldl_cons, List.filter_cons, hat, hc, hv,
            if_true, Bool.false_eq_true, if_false]
          rw [ih (upsert acc v h), alookup_upsert_ne acc v k h hk]
    · have hat : isCurveAt k h = false := by simp [isCurveAt, hc]
      simp only [List.foldl_cons, List.filter_cons, hat, hc,
        Bool.false_eq_true, if_false]
      exact ih acc

/-- C9: the document's derived curves view maps `k` to exactly the last
header in document order whose tag is `curve` and whose `curve_index`
entry is `k`; headers lacking a `curve_index` entry are omitted, and when
two curve headers carry the same `curve_index` the later one wins. -/
theorem C9_curves_view (hs : List Header) (k : Value) :
    alookup (curvesMap hs) k = (hs.filter (isCurveAt k)).getLast? := by
  rw [curvesMap, curvesFold_lookup]
  cases hl : (hs.filter (isCurveAt k)).getLast? <;>
    simp [Option.orElse, alookup]

/-! ## Token sanitization (parser.py `_sanitize_token`, `Note`) -/

/-- Python `str.lower()` on the ASCII range, as a plain character map
(core's `String.toLower` is extensionally the same but is defined by
well-founded byte-position recursion). -/
def toLowerStr (s : String) : String := String.mk (s.data.map Char.toLower)

/-- Python `str.strip()`: drop whitespace from both ends. -/
def pyStrip (s : String) : String :=
  String.mk
    (((s.data.dropWhile (·.isWhitespace)).reverse.dropWhile
      (·.isWhitespace)).reverse)

/-- Python `int(s)`: optional sign followed by decimal digits.  (Python
also tolerates surrounding whitespace and `_` digit separators, which the
lexer never produces and which are not modelled.) -/
def parsePyInt (s : String) : Option Int :=
  match s.data with
  | '-' :: ds =>
    if !ds.isEmpty && ds.all (·.isDigit) then some (-(digitsToNat ds : Int))
    else none
  | '+' :: ds =>
    if !ds.isEmpty && ds.all (·.isDigit) then some (digitsToNat ds) else none
  | ds =>
    if !ds.isEmpty && ds.all (·.isDigit) then some (digitsToNat ds) else none

/-- Python `float(s)` restricted to plain decimal literals (exponent and
inf/nan spellings never occur in sfz files and are not modelled); the
value is exact as a rational. -/
def parsePyFloat (s : String) : Option Rat :=
  let core : List Char → Option Rat := fun cs =>
    let intPart := cs.takeWhile (·.isDigit)
    let rest := cs.dropWhile (·.isDigit)
    match rest with
    | [] => if cs.isEmpty then none else some (digitsToNat intPart)
    | '.' :: frac =>
      if frac.all (·.isDigit) && !(intPart.isEmpty && frac.isEmpty) then
        some ((digitsToNat intPart : Rat)
          + (digitsToNat frac : Rat) / (10 : Rat) ^ frac.length)
      else none
    | _ => none
  match s.data with
  | '-' :: cs => (core cs).map (fun q => -q)
  | '+' :: cs => core cs
  | cs => core cs

/-- `Note.notemap` (src/sfzlint/parser.py, lines 24-26). -/
def notemap : List (String × Nat) :=
  [("c", 0), ("c#", 1), ("db", 1), ("d", 2), ("d#", 3), ("eb", 3),
   ("e", 4), ("f", 5), ("f#", 6), ("gb", 6), ("g", 7), ("g#", 8),
   ("ab", 8), ("a", 9), ("a#", 10), ("bb", 10), ("b", 11)]

/-- `Note.__new__`: last character is the octave digit, the rest (case
folded) is the key; `c1 == 24`. -/
def parseNote (s : String) : Option Int :=
  match s.data.getLast? with
  | none => none
  | some c =>
    if c.isDigit then
      match notemap.lookup (toLowerStr (String.mk s.data.dropLast)) with
      | some base => some ((base : Int) + ((c.toNat - 48) : Nat) * 12 + 12)
      | none => none
    else none

/-- `SFZValidator._sanitize_token` (src/sfzlint/parser.py, lines
270-281): strip a surrounding pair of double quotes, else try `int`,
`float`, `Note` in that order, else fall back to the trimmed string. -/
def sanitizeToken (s : String) : Value :=
  match s.data with
  | [] => .str (pyStrip s)
  | c :: _ =>
    if c = '"' && s.data.getLast? = some '"' then
      .str (String.mk (s.data.drop 1).dropLast)
    else
      match parsePyInt s with
      | some i => .num i
      | none =>
        match parsePyFloat s with
        | some q => .num q
        | none =>
          match parseNote s with
          | some n => .num n
          | none => .str (pyStrip s)

/-! ## The validator walk (src/sfzlint/parser.py `SFZValidator`) -/

/-- `SFZValidatorConfig` (src/sfzlint/parser.py, lines 96-135), the
fields the walk reads.  `sample_dir` caching and pickling are CLI
concerns outside the walk. -/
structure Config where
  warnUndefinedVar : Bool := true
  validate : Bool := true
  validateCurvecc : Bool := true
  checkIncludes : Bool := false
  fileName : Option String := none
  relPath : Option String := none
  specVersions : Option (List String) := none
  defaultPath : Option Value := none
deriving DecidableEq, Repr

/-- A diagnostic as delivered to the error callback:
`(severity, message, token, file)`. -/
structure Diag where
  sev : String
  msg : String
  tok : String
  file : String
deriving DecidableEq, Repr

/-- The `SFZ` document under construction (src/sfzlint/parser.py,
lines 60-64). -/
structure SFZDoc where
  headers : List Header := []
  defines : List (String × Value) := []
  includes : List Value := []
deriving DecidableEq, Repr

/-- The mutable state of one `SFZValidator` instance during `transform`:
its config, the shared document, the current-header cursor (an index into
`sfz.headers`), the deferred curve-cc queue and the diagnostics emitted
so far. -/
structure WState where
  config : Config
  sfz : SFZDoc
  current : Option Nat
  curveccs : List (String × Value)
  diags : List Diag
deriving DecidableEq, Repr

/-- `self.config.file_name or 'INPUT'`. -/
def fileNameOf (cfg : Config) : String := cfg.fileName.getD "INPUT"

/-- `_err` / `_warn`: deliver a diagnostic only when validation is
enabled for the current context. -/
def emitIf (st : WState) (sev msg tok : String) : WState :=
  if st.config.validate then
    { st with diags := st.diags ++ [⟨sev, msg, tok, fileNameOf st.config⟩] }
  else st

/-- Python `\w` on the ASCII range. -/
def isWordC (c : Char) : Bool := c.isAlphanum || c = '_'

/-- The scan of `re.sub(r'\$\w+', onmatch, token)` inside `_varreplace`:
returns the substituted characters and the names of undefined variables
in match order (each left in place as literal text). -/
def vrGo (defs : List (String × Value)) : List Char → List Char × List String
  | [] => ([], [])
  | c :: cs =>
    if c = '$' then
      let w := cs.takeWhile isWordC
      if w.isEmpty then
        let p := vrGo defs cs
        ('$' :: p.1, p.2)
      else
        let p := vrGo defs (cs.dropWhile isWordC)
        match defs.lookup (String.mk w) with
        | some v => ((valueStr v).data ++ p.1, p.2)
        | none => ('$' :: w ++ p.1, String.mk w :: p.2)
    else
      let p := vrGo defs cs
      (c :: p.1, p.2)
termination_by l => l.length
decreasing_by
  all_goals simp
  all_goals
    (have h := (List.dropWhile_sublist (l := cs) isWordC).length_le; omega)

/-- `SFZValidator._varreplace` applied to a token when the token contains
`$`: substitute defined variables, and report each undefined variable as
an error when `warn_undefined_var` is set. -/
def varSub (st : WState) (s : String) : WState × String :=
  if '$' ∈ s.data then
    let p := vrGo st.sfz.defines s.data
    let st :=
      if st.config.warnUndefinedVar then
        p.2.foldl (fun st n => emitIf st "ERR" ("undefined variable " ++ n) s)
          st
      else st
    (st, String.mk p.1)
  else (st, s)

/-- `header_meta` (src/sfzlint/headers.py, lines 55-64): minimum version
tag and the singleton flag for each known header tag. -/
def headerMeta : String → Option (String × Bool)
  | "region" => some ("v1", false)
  | "group" => some ("v1", false)
  | "control" => some ("v2", true)
  | "global" => some ("v2", true)
  | "curve" => some ("v2", false)
  | "effect" => some ("v2", true)
  | "master" => some ("aria", false)
  | "midi" => some ("aria", true)
  | _ => none

/-- `HeaderList._inc_cnt` + `insert` (src/sfzlint/headers.py, lines
45-52): appending a second header of a singleton tag raises the
`AttributeError` `'only one {name} header allowed'`; the count a tag has
reached equals the number of appended headers with that tag.  (For a tag
outside `header_meta` the second occurrence raises an uncaught
`KeyError` in the source; no claim involves such a tag and that crash is
not modelled.) -/
def appendH (hs : List Header) (tag : String) : Except String (List Header) :=
  if 0 < (hs.filter (fun h => h.token = tag)).length
      && (((headerMeta tag).map Prod.snd).getD false) then
    .error ("only one " ++ tag ++ " header allowed")
  else .ok (hs ++ [⟨tag, []⟩])

/-- Rendering of the active version filter inside the header-version
warning message (Python formats the set; the exact set syntax is not
relevant to any claim). -/
def versionsStr (vs : List String) : String := String.intercalate ", " vs

/-- `SFZValidator.header` (src/sfzlint/parser.py, lines 166-174) with
`_validate_header` (lines 219-224): optional version warning, then
append; on the singleton `AttributeError` the exception message is
reported and the current header is left unchanged. -/
def stepHeader (st : WState) (tag : String) : WState :=
  let st :=
    if st.config.validate then
      match st.config.specVersions, headerMeta tag with
      | some vs, some m =>
        if m.1 ∈ vs then st
        else
          emitIf st "WARN"
            ("header spec " ++ m.1 ++ " not in " ++ versionsStr vs
              ++ " (" ++ tag ++ ")") tag
      | _, _ => st
    else st
  match appendH st.sfz.headers tag with
  | .ok hs =>
    { st with
      sfz := { st.sfz with headers := hs },
      current := some st.sfz.headers.length }
  | .error msg => emitIf st "ERR" msg tag

/-- `SFZValidator.define_macro` (src/sfzlint/parser.py, lines 176-179);
the grammar's variable token carries the name without its `$` sigil, as
fixed by the lookups in `_varreplace` and the tests. -/
def stepDefine (st : WState) (var val : String) : WState :=
  { st with
    sfz := { st.sfz with
      defines := updateEntry st.sfz.defines var (sanitizeToken val) } }

/-- Replace the header at an index, `dict`-style assignment through the
`current_header` reference. -/
def modifyAt : List Header → Nat → (Header → Header) → List Header
  | [], _, _ => []
  | h :: r, 0, f => f h :: r
  | h :: r, n + 1, f => h :: modifyAt r n f

/-- `SFZValidator._validate_opcode` (src/sfzlint/parser.py, lines
226-256).  `check` stands for `opcodes.validate_opcode_expr` of the
newer revision the parser calls (absent from src/sfzlint/opcodes.py,
which holds an incompatible older signature); it receives the folded
opcode and sanitized value and returns the diagnostics the engine
surfaces.  The duplicate check runs against the name before case
folding, exactly as in the source. -/
def stepOpcode (check : String → Value → List Diag) (st : WState)
    (name val : String) : WState :=
  match st.current with
  | none => emitIf st "ERR" ("opcode outside of header (" ++ name ++ ")") name
  | some idx =>
    let p := varSub st name
    let st := p.1
    let name1 := p.2
    let hdr := st.sfz.headers.getD idx ⟨"", []⟩
    let st :=
      if (slookup hdr.entries name1).isSome then
        emitIf st "WARN" "duplicate opcode" name1
      else st
    let folded := toLowerStr name1
    let q := varSub st val
    let st := q.1
    let tok := sanitizeToken q.2
    let st :=
      { st with
        sfz := { st.sfz with
          headers := modifyAt st.sfz.headers idx
            (fun h => { h with entries := updateEntry h.entries folded tok }) } }
    let st :=
      if folded = "default_path" then
        { st with config := { st.config with defaultPath := some tok } }
      else st
    if !st.config.validate then st
    else if containsSub folded "curvecc" then
      { st with curveccs := st.curveccs ++ [(folded, tok)] }
    else { st with diags := st.diags ++ check folded tok }

/-! ## Curve-cc deferral (parser.py `_validate_curvecc`,
spec.py `CurveCCValidator`) -/

/-- The keys of the document's curves view, `config.sfz.curves`. -/
def curveKeys (hs : List Header) : List Value := (curvesMap hs).map Prod.fst

namespace CurveCCValidator

/-- `CurveCCValidator.validate` (src/sfzlint/spec.py, lines 74-82) on a
numeric value: negative indices are rejected outright, indices below 7
are built-in curves, larger indices must be declared by a `<curve>`
header. -/
def validate (q : Rat) (keys : List Value) : Option String :=
  if q < 0 then some "negative curve_index"
  else if q < 7 then none
  else if Value.num q ∈ keys then none
  else some "no corresponding curve_index found"

end CurveCCValidator

/-- Modelled from the spec: `opcodes.validate_curvecc`, called by
`SFZValidator._validate_curvecc` (src/sfzlint/parser.py, lines 283-290),
is absent from src/sfzlint/opcodes.py (an older revision).  Per spec
§4.3/§4.5 it verifies the numeric value of a deferred curve-cc opcode
through the curve-index check of `spec.CurveCCValidator`; only numeric
values are specified, so non-numeric values produce no curve
diagnostic here. -/
def validateCurveccTok (tok : Value) (hs : List Header) : Option String :=
  match tok with
  | .num q => CurveCCValidator.validate q (curveKeys hs)
  | .str _ => none

/-- The diagnostic a deferred queue entry produces, if any; the reported
token is the offending value, as in the repository's own tests. -/
def curveDiagOf (cfg : Config) (hs : List Header) (e : String × Value) :
    Option Diag :=
  (validateCurveccTok e.2 hs).map
    (fun m => ⟨"WARN", m, valueStr e.2, fileNameOf cfg⟩)

/-- The `start` rule's end-of-walk pass (src/sfzlint/parser.py, lines
192-195 and 283-290): when deferred validation is enabled for this
context, run the queue in declaration order, reporting each failure. -/
def finalizeCurvecc (st : WState) : WState :=
  if st.config.validateCurvecc then
    st.curveccs.foldl
      (fun st e =>
        match validateCurveccTok e.2 st.sfz.headers with
        | some m => emitIf st "WARN" m (valueStr e.2)
        | none => st)
      st
  else st

/-! ## Includes and the item walk -/

/-- One node of the parsed syntax tree, in document order. -/
inductive Item where
  | header (tag : String)
  | define (var val : String)
  | include (path : String)
  | opcode (name val : String)
deriving DecidableEq, Repr

/-- The filesystem as the walk sees it: resolved path to either the
re-parsed items of the file or a parse failure, absent when the path is
not a file. -/
def Fs := List (String × Except String (List Item))

/-- The derived context built for an include by
`SFZValidator._load_include` (src/sfzlint/parser.py, lines 202-207):
validation follows `check_includes`, the diagnostic file switches to the
included path, deferred curve validation is disabled (it runs once at the
true top level), and `default_path` — not among the constructor's
keywords — resets. -/
def deriveConfig (cfg : Config) (path : String) : Config :=
  { cfg with
    validate := cfg.checkIncludes,
    fileName := some path,
    validateCurvecc := false,
    defaultPath := none }

/-- `SFZValidator._load_include` (src/sfzlint/parser.py, lines 197-217).
`deeper` runs the nested transform; `none` stands for an exception
escaping it (e.g. `RecursionError` on an include cycle), which the
`except Exception` arm converts to a single diagnostic after restoring
the caller's config.  A missing file is reported before any context
switch; a parse failure is reported after the switch has been undone, so
in both failure modes the caller's config is untouched. -/
def incLoad (fs : Fs) (deeper : WState → List Item → Option WState)
    (st : WState) (pv : Value) : WState :=
  match st.config.relPath with
  | none => st
  | some rp =>
    let resolved := rp ++ "/" ++ valueStr pv
    match fs.lookup resolved with
    | none => emitIf st "ERR" "could not load include, file not found"
        (valueStr pv)
    | some (.error e) =>
      emitIf st "ERR" ("error loading include, " ++ e) (valueStr pv)
    | some (.ok items) =>
      match deeper { st with config := deriveConfig st.config resolved }
          items with
      | some st1 => { st1 with config := st.config }
      | none =>
        emitIf st "ERR"
          ("error loading include, maximum recursion depth exceeded")
          (valueStr pv)

/-- One tree node of the `Transformer` walk.  `include_macro`
(src/sfzlint/parser.py, lines 181-186) sanitizes the path token, loads
the file when a base directory is known, and records the include. -/
def stepItem (check : String → Value → List Diag) (fs : Fs)
    (runInc : WState → Value → WState) (st : WState) : Item → WState
  | .header tag => stepHeader st tag
  | .define var val => stepDefine st var val
  | .include p =>
    let pv := sanitizeToken p
    let st1 :=
      match st.config.relPath with
      | none => st
      | some _ => runInc st pv
    { st1 with sfz := { st1.sfz with includes := st1.sfz.includes ++ [pv] } }
  | .opcode name val => stepOpcode check st name val

/-- The walk over a sequence of sibling items. -/
def runItemsF (check : String → Value → List Diag) (fs : Fs)
    (runInc : WState → Value → WState) :
    WState → List Item → WState
  | st, [] => st
  | st, it :: rest => runItemsF check fs runInc (stepItem check fs runInc st it) rest

/-- The recursive walk with an include-depth budget; a nested `transform`
ends with the `start` rule and hence with `finalizeCurvecc` (a no-op
under the derived config). -/
def runDepth (check : String → Value → List Diag) (fs : Fs) :
    Nat → WState → List Item → WState
  | 0, st, items =>
    runItemsF check fs (fun st pv => incLoad fs (fun _ _ => none) st pv)
      st items
  | n + 1, st, items =>
    runItemsF check fs
      (fun st pv =>
        incLoad fs
          (fun st' its => some (finalizeCurvecc (runDepth check fs n st' its)))
          st pv)
      st items

/-- A fresh validator state for a config, as built by
`SFZValidator.__init__`. -/
def initState (cfg : Config) : WState :=
  { config := cfg, sfz := {}, current := none, curveccs := [], diags := [] }

/-- `SFZValidator.transform` on a parsed top-level document followed by
the `start` rule. -/
def runSFZ (check : String → Value → List Diag) (fs : Fs) (fuel : Nat)
    (cfg : Config) (items : List Item) : WState :=
  finalizeCurvecc (runDepth check fs fuel (initState cfg) items)

/-- A trivial rule engine accepting everything, standing in for a rule
table with no matching constraints. -/
def noCheck : String → Value → List Diag := fun _ _ => []

/-- The process-wide rule-table cache of src/sfzlint/spec.py (lines
232-238): `opcodes()` compiles the table on first use and memoizes it in
the module-level `_cache`. -/
def opcodesCached {α : Type} (build : Unit → α) :
    Option α → α × Option α
  | some t => (t, some t)
  | none =>
    let t := build ()
    (t, some t)

/-- `validate_s` (src/sfzlint/parser.py, lines 313-317) with the hidden
rule-table state made explicit: parse, build a fresh validator, walk, and
return the outcome together with the cache left behind. -/
def validate_s {α : Type} (build : Unit → α)
    (engine : α → String → Value → List Diag)
    (parseFn : String → List Item) (fs : Fs) (fuel : Nat) (cfg : Config)
    (cache : Option α) (s : String) :
    (List Diag × SFZDoc) × Option α :=
  let p := opcodesCached build cache
  let st := runSFZ (engine p.1) fs fuel cfg (parseFn s)
  ((st.diags, st.sfz), p.2)

/-! ## Characterization of one opcode-assignment step -/

/-- Explicit description of `stepOpcode` for a `$`-free assignment under
an existing current header with validation enabled: the duplicate check
runs against the *unfolded* name, the value is stored under the *folded*
name (overwriting), `default_path` updates the config, and a name
containing `curvecc` is queued instead of being checked. -/
def stepOpcodeView (check : String → Value → List Diag) (st : WState)
    (name val : String) (idx : Nat) : WState :=
  let hdr := st.sfz.headers.getD idx ⟨"", []⟩
  let folded := toLowerStr name
  let tok := sanitizeToken val
  let dupDiags : List Diag :=
    if (slookup hdr.entries name).isSome then
      [⟨"WARN", "duplicate opcode", name, fileNameOf st.config⟩]
    else []
  let engDiags : List Diag :=
    if containsSub folded "curvecc" then [] else check folded tok
  { st with
    sfz := { st.sfz with
      headers := modifyAt st.sfz.headers idx
        (fun h => { h with entries := updateEntry h.entries folded tok }) },
    config :=
      if folded = "default_path" then
        { st.config with defaultPath := some tok }
      else st.config,
    curveccs :=
      if containsSub folded "curvecc" then st.curveccs ++ [(folded, tok)]
      else st.curveccs,
    diags := st.diags ++ dupDiags ++ engDiags }

theorem stepOpcode_eq (check : String → Value → List Diag) (st : WState)
    (name val : String) (idx : Nat)
    (hcur : st.current = some idx) (hval : st.config.validate = true)
    (hn : ¬ '$' ∈ name.data) (hv : ¬ '$' ∈ val.data) :
    stepOpcode check st name val = stepOpcodeView check st name val idx := by
  unfold stepOpcode stepOpcodeView varSub
  rw [hcur]
  simp only [if_neg hn, if_neg hv]
  by_cases hdup : (slookup (st.sfz.headers.getD idx ⟨"", []⟩).entries
      name).isSome
  · simp only [hdup, if_pos, emitIf, hval, if_true]
    by_cases hdp : toLowerStr name = "default_path"
    · simp only [hdp, if_pos]
      have hcc : containsSub "default_path" "curvecc" = false := by decide
      simp [hcc, hval, hcur]
    · simp only [hdp, if_neg, ite_false]
      by_cases hcc : containsSub (toLowerStr name) "curvecc"
      · simp [hcc, hval, hcur]
      · simp [hcc, hval, hcur]
  · simp only [hdup, if_neg, Bool.false_eq_true, ite_false]
    by_cases hdp : toLowerStr name = "default_path"
    · simp only [hdp, if_pos]
      have hcc : containsSub "default_path" "curvecc" = false := by decide
      simp [hcc, hval, hcur]
    · simp only [hdp, if_neg, ite_false]
      by_cases hcc : containsSub (toLowerStr name) "curvecc"
      · simp [hcc, hval, hcur]
      · simp [hcc, hval, hcur]

theorem finalize_fold (q : List (String × Value)) : ∀ (st : WState),
    st.config.validate = true →
    q.foldl
      (fun st e =>
        match validateCurveccTok e.2 st.sfz.headers with
        | some m => emitIf st "WARN" m (valueStr e.2)
        | none => st) st
    = { st with diags := st.diags
        ++ q.filterMap (curveDiagOf st.config st.sfz.headers) } := by
  induction q with
  | nil => intro st hv; simp
  | cons e r ih =>
    intro st hv
    cases hm : validateCurveccTok e.2 st.sfz.headers with
    | none =>
      simp only [List.foldl_cons, hm]
      rw [ih st hv]
      simp [curveDiagOf, hm]
    | some m =>
      simp only [List.foldl_cons]
      have hstep :
          (match validateCurveccTok e.2 st.sfz.headers with
            | some m => emitIf st "WARN" m (valueStr e.2)
            | none => st)
          = { st with diags := st.diags
              ++ [⟨"WARN", m, valueStr e.2, fileNameOf st.config⟩] } := by
        rw [hm]
        simp [emitIf, hv]
      rw [hstep]
      rw [ih { st with diags := st.diags
        ++ [⟨"WARN", m, valueStr e.2, fileNameOf st.config⟩] } hv]
      simp [curveDiagOf, hm]

/-! ## Claims C2, C4, C5, C7, C8 -/

/-- C2 (amended): every opcode assignment whose case-folded,
variable-substituted name contains `curvecc` is not validated at the
assignment site (the rule engine `check` is never consulted) but appended
to the deferred queue; assignments without `curvecc` leave the queue
untouched; at the end of the top-level walk the queue is validated in
declaration order; and a deferred numeric value is accepted
unconditionally when `0 ≤ v < 7`, rejected as "negative curve_index" when
negative, accepted for `v ≥ 7` exactly when it is a key of the document's
curves map, and otherwise "no corresponding curve_index found" is
emitted.  (The original claim's "strictly less than 7 is accepted
unconditionally" fails for negative values.) -/
theorem C2_curvecc_deferred :
    (∀ (check : String → Value → List Diag) (st : WState)
        (name val : String) (idx : Nat),
        st.current = some idx → st.config.validate = true →
        ¬ '$' ∈ name.data → ¬ '$' ∈ val.data →
        containsSub (toLowerStr name) "curvecc" = true →
        stepOpcode check st name val
          = { st with
              sfz := { st.sfz with
                headers := modifyAt st.sfz.headers idx
                  (fun h => { h with
                    entries := updateEntry h.entries (toLowerStr name)
                      (sanitizeToken val) }) },
              curveccs := st.curveccs
                ++ [(toLowerStr name, sanitizeToken val)],
              diags := st.diags
                ++ (if (slookup (st.sfz.headers.getD idx ⟨"", []⟩).entries
                      name).isSome then
                    [⟨"WARN", "duplicate opcode", name,
                      fileNameOf st.config⟩]
                  else []) })
    ∧ (∀ (check : String → Value → List Diag) (st : WState)
        (name val : String) (idx : Nat),
        st.current = some idx → st.config.validate = true →
        ¬ '$' ∈ name.data → ¬ '$' ∈ val.data →
        containsSub (toLowerStr name) "curvecc" = false →
        (stepOpcode check st name val).curveccs = st.curveccs)
    ∧ (∀ st : WState, st.config.validateCurvecc = true →
        st.config.validate = true →
        finalizeCurvecc st
          = { st with diags := st.diags
              ++ st.curveccs.filterMap (curveDiagOf st.config st.sfz.headers) })
    ∧ (∀ (q : Rat) (keys : List Value),
        (q < 0 →
          CurveCCValidator.validate q keys = some "negative curve_index")
        ∧ (0 ≤ q → q < 7 → CurveCCValidator.validate q keys = none)
        ∧ (7 ≤ q → Value.num q ∈ keys →
            CurveCCValidator.validate q keys = none)
        ∧ (7 ≤ q → ¬ Value.num q ∈ keys →
            CurveCCValidator.validate q keys
              = some "no corresponding curve_index found")) := by
  refine ⟨?_, ?_, ?_, ?_⟩
  · intro check st name val idx hcur hval hn hv hcc
    rw [stepOpcode_eq check st name val idx hcur hval hn hv]
    have hdp : ¬ toLowerStr name = "default_path" := by
      intro h
      rw [h] at hcc
      exact absurd hcc (by decide)
    simp [stepOpcodeView, hcc, hdp]
  · intro check st name val idx hcur hval hn hv hcc
    rw [stepOpcode_eq check st name val idx hcur hval hn hv]
    simp [stepOpcodeView, hcc]
  · intro st hvc hval
    unfold finalizeCurvecc
    rw [if_pos hvc]
    exact finalize_fold st.curveccs st hval
  · intro q keys
    refine ⟨?_, ?_, ?_, ?_⟩
    · intro h; simp [CurveCCValidator.validate, h]
    · intro h0 h7
      simp [CurveCCValidator.validate, h7, not_lt.mpr h0]
    · intro h7 hk
      simp [CurveCCValidator.validate, not_lt.mpr (by linarith : (0:Rat) ≤ q),
        not_lt.mpr h7, hk]
    · intro h7 hk
      simp [CurveCCValidator.validate, not_lt.mpr (by linarith : (0:Rat) ≤ q),
        not_lt.mpr h7, hk]

/-- Closed witness for `C2_curvecc_deferred`: the value semantics at
concrete inputs, and the deferral of a concrete `curvecc` assignment. -/
theorem C2_curvecc_deferred_witness :
    CurveCCValidator.validate 3 [] = none
    ∧ CurveCCValidator.validate 9 [Value.num 9] = none
    ∧ CurveCCValidator.validate 9 []
        = some "no corresponding curve_index found"
    ∧ (stepOpcode noCheck
        ⟨{}, ⟨[⟨"region", []⟩], [], []⟩, some 0, [], []⟩
        "amplitude_curvecc110" "9").curveccs
      = [("amplitude_curvecc110", Value.num 9)] :=
  ⟨(C2_curvecc_deferred.2.2.2 3 []).2.1 (by norm_num) (by norm_num),
   (C2_curvecc_deferred.2.2.2 9 [Value.num 9]).2.2.1 (by norm_num)
     (by simp),
   (C2_curvecc_deferred.2.2.2 9 []).2.2.2 (by norm_num) (by simp),
   by
    rw [C2_curvecc_deferred.1 noCheck
      ⟨{}, ⟨[⟨"region", []⟩], [], []⟩, some 0, [], []⟩
      "amplitude_curvecc110" "9" 0 rfl rfl (by decide) (by decide)
      (by decide)]
    decide⟩

/-- C2 counterexample: the claim's "a deferred curve-cc value strictly
less than 7 is accepted unconditionally" fails — a deferred value of `-2`
is smaller than 7 yet the walk emits the "negative curve_index"
diagnostic for it. -/
theorem C2_curvecc_counterexample :
    (runSFZ noCheck [] 1 {}
      [.header "region", .opcode "amplitude_curvecc110" "-2"]).diags
    = [⟨"WARN", "negative curve_index", "-2", "INPUT"⟩] := by
  decide

/-- C4 (amended): header-cardinality constraints ARE enforced — a second
header of a singleton tag is rejected by `HeaderList._inc_cnt`: it is not
appended, the current header stays unchanged, and the
"only one ... header allowed" error diagnostic is emitted; a first
occurrence, or any non-singleton tag, is appended and becomes current. -/
theorem C4_singleton_headers (st : WState) (tag : String)
    (m : String × Bool) (hm : headerMeta tag = some m)
    (hvs : st.config.specVersions = none) :
    (0 < (st.sfz.headers.filter (fun h => h.token = tag)).length →
      m.2 = true →
      stepHeader st tag
        = { st with diags := st.diags
            ++ (if st.config.validate then
                [⟨"ERR", "only one " ++ tag ++ " header allowed", tag,
                  fileNameOf st.config⟩]
              else []) })
    ∧ ((st.sfz.headers.filter (fun h => h.token = tag)).length = 0
        ∨ m.2 = false →
      stepHeader st tag
        = { st with
            sfz := { st.sfz with
              headers := st.sfz.headers ++ [⟨tag, []⟩] },
            current := some st.sfz.headers.length }) := by
  constructor
  · intro hcnt hsingle
    simp only [stepHeader, hvs, hm, appendH, ite_self]
    rw [if_pos (by simp [hcnt, hsingle])]
    simp [emitIf]
    split <;> simp
  · intro hns
    simp only [stepHeader, hvs, hm, appendH, ite_self]
    rw [if_neg (by rcases hns with h | h <;> simp [hm, h])]

/-- Closed witness for `C4_singleton_headers`: a duplicate `<global>` is
rejected with the error, and a duplicate `<region>` is appended. -/
theorem C4_singleton_headers_witness :
    stepHeader
      { config := {}, sfz := { headers := [⟨"global", []⟩] },
        current := some 0, curveccs := [], diags := [] } "global"
      = { config := {}, sfz := { headers := [⟨"global", []⟩] },
          current := some 0, curveccs := [],
          diags := [⟨"ERR", "only one global header allowed", "global",
            "INPUT"⟩] }
    ∧ stepHeader
        { config := {}, sfz := { headers := [⟨"region", []⟩] },
          current := some 0, curveccs := [], diags := [] } "region"
      = { config := {}, sfz := { headers := [⟨"region", []⟩, ⟨"region", []⟩] },
          current := some 1, curveccs := [], diags := [] } :=
  ⟨by
    rw [(C4_singleton_headers _ "global" ("v2", true) rfl rfl).1
      (by decide) rfl]
    decide,
   by
    rw [(C4_singleton_headers _ "region" ("v1", false) rfl rfl).2
      (Or.inr rfl)]
    decide⟩

/-- C4 counterexample: for a document with two `<global>` headers the
claim asserts both are appended, the second becomes current and no
diagnostic is emitted; the walk instead keeps a single header (the
subsequent opcode lands in the first `<global>`), leaves it current and
emits the cardinality error. -/
theorem C4_counterexample :
    (runSFZ noCheck [] 1 {}
        [.header "global", .header "global", .opcode "hivel" "10"]).sfz.headers
      = [⟨"global", [("hivel", Value.num 10)]⟩]
    ∧ (runSFZ noCheck [] 1 {}
        [.header "global", .header "global", .opcode "hivel" "10"]).diags
      = [⟨"ERR", "only one global header allowed", "global", "INPUT"⟩]
    ∧ (runSFZ noCheck [] 1 {}
        [.header "global", .header "global", .opcode "hivel" "10"]).current
      = some 0 := by
  refine ⟨by decide, by decide, by decide⟩

/-- C5 (amended): processing an opcode assignment folds the name to
lowercase and stores the newly sanitized value under the folded name, so
the last write always wins; but the duplicate check runs against the name
*before* case folding, so the duplicate-opcode warning is emitted exactly
when the unfolded (variable-substituted) name is already a key of the
current header — a differently-cased duplicate of an existing key escapes
the warning.  `stepOpcodeView` spells this out field by field. -/
theorem C5_duplicate_and_overwrite :
    (∀ (check : String → Value → List Diag) (st : WState)
        (name val : String) (idx : Nat),
        st.current = some idx → st.config.validate = true →
        ¬ '$' ∈ name.data → ¬ '$' ∈ val.data →
        stepOpcode check st name val = stepOpcodeView check st name val idx)
    ∧ (∀ (es : List (String × Value)) (k : String) (v : Value),
        slookup (updateEntry es k v) k = some v) := by
  constructor
  · exact stepOpcode_eq
  · intro es k v
    induction es with
    | nil => simp [updateEntry, slookup]
    | cons p r ih =>
      by_cases h : p.1 = k
      · simp [updateEntry, h, slookup]
      · simp [updateEntry, h, slookup, ih]

/-- Closed witness for `C5_duplicate_and_overwrite`: the assignment
`Volume=4` over an existing `volume` key, and the overwrite equation. -/
theorem C5_duplicate_and_overwrite_witness :
    stepOpcode noCheck
      ⟨{}, ⟨[⟨"group", [("volume", Value.num 3)]⟩], [], []⟩, some 0, [], []⟩
      "Volume" "4"
      = stepOpcodeView noCheck
        ⟨{}, ⟨[⟨"group", [("volume", Value.num 3)]⟩], [], []⟩, some 0, [], []⟩
        "Volume" "4" 0
    ∧ slookup (updateEntry [("volume", Value.num 3)] "volume" (Value.num 4))
        "volume" = some (Value.num 4) :=
  ⟨C5_duplicate_and_overwrite.1 noCheck
    ⟨{}, ⟨[⟨"group", [("volume", Value.num 3)]⟩], [], []⟩, some 0, [], []⟩
    "Volume" "4" 0 rfl rfl (by decide) (by decide),
   C5_duplicate_and_overwrite.2 [("volume", Value.num 3)] "volume"
     (Value.num 4)⟩

/-- C5 counterexample: the claim says a duplicate-opcode warning is
emitted whenever the case-folded name is already a key; but for
`volume=3` followed by `Volume=4` the folded key `volume` is present
while the unfolded name `Volume` is not, so the walk emits no warning —
yet the value is still overwritten under the folded key. -/
theorem C5_counterexample :
    (runSFZ noCheck [] 1 {}
        [.header "group", .opcode "volume" "3", .opcode "Volume" "4"]).diags
      = []
    ∧ (runSFZ noCheck [] 1 {}
        [.header "group", .opcode "volume" "3",
          .opcode "Volume" "4"]).sfz.headers
      = [⟨"group", [("volume", Value.num 4)]⟩] := by
  refine ⟨by decide, by decide⟩

/-- C7: when an include cannot be resolved (the resolved path is not a
file) or its contents fail to re-parse, exactly one "include" diagnostic
is appended, the nested runner is never consulted (so no failure
propagates out of the surrounding walk), the caller's config — file name
and validation flags — is exactly the one the walk continues with, and
the walk proceeds to the remaining sibling items. -/
theorem C7_include_failures (check : String → Value → List Diag) (fs : Fs)
    (deeper : WState → List Item → Option WState) (st : WState)
    (p : String) (rest : List Item) (rp : String)
    (hval : st.config.validate = true)
    (hrp : st.config.relPath = some rp) :
    (fs.lookup (rp ++ "/" ++ valueStr (sanitizeToken p)) = none →
      runItemsF check fs (incLoad fs deeper) st (.include p :: rest)
        = runItemsF check fs (incLoad fs deeper)
            { st with
              sfz := { st.sfz with
                includes := st.sfz.includes ++ [sanitizeToken p] },
              diags := st.diags
                ++ [⟨"ERR", "could not load include, file not found",
                  valueStr (sanitizeToken p), fileNameOf st.config⟩] }
            rest)
    ∧ (∀ e, fs.lookup (rp ++ "/" ++ valueStr (sanitizeToken p))
          = some (.error e) →
      runItemsF check fs (incLoad fs deeper) st (.include p :: rest)
        = runItemsF check fs (incLoad fs deeper)
            { st with
              sfz := { st.sfz with
                includes := st.sfz.includes ++ [sanitizeToken p] },
              diags := st.diags
                ++ [⟨"ERR", "error loading include, " ++ e,
                  valueStr (sanitizeToken p), fileNameOf st.config⟩] }
            rest) := by
  constructor
  · intro hnf
    show runItemsF check fs (incLoad fs deeper)
      (stepItem check fs (incLoad fs deeper) st (.include p)) rest = _
    have hstep : stepItem check fs (incLoad fs deeper) st (.include p)
        = { st with
            sfz := { st.sfz with
              includes := st.sfz.includes ++ [sanitizeToken p] },
            diags := st.diags
              ++ [⟨"ERR", "could not load include, file not found",
                valueStr (sanitizeToken p), fileNameOf st.config⟩] } := by
      simp only [stepItem, incLoad, hrp, hnf, emitIf, hval, if_true]
    rw [hstep]
  · intro e hpe
    show runItemsF check fs (incLoad fs deeper)
      (stepItem check fs (incLoad fs deeper) st (.include p)) rest = _
    have hstep : stepItem check fs (incLoad fs deeper) st (.include p)
        = { st with
            sfz := { st.sfz with
              includes := st.sfz.includes ++ [sanitizeToken p] },
            diags := st.diags
              ++ [⟨"ERR", "error loading include, " ++ e,
                valueStr (sanitizeToken p), fileNameOf st.config⟩] } := by
      simp only [stepItem, incLoad, hrp, hpe, emitIf, hval, if_true]
    rw [hstep]

/-- Closed witness for `C7_include_failures`: a missing include file on
an empty filesystem yields the single diagnostic and the walk continues
with the next item under the caller's config. -/
theorem C7_include_failures_witness :
    runItemsF noCheck [] (incLoad [] (fun _ _ => none))
      ⟨{ relPath := some "d" }, ⟨[], [], []⟩, none, [], []⟩
      [.include "x.sfz", .header "region"]
    = runItemsF noCheck [] (incLoad [] (fun _ _ => none))
      ⟨{ relPath := some "d" },
        ⟨[], [], [sanitizeToken "x.sfz"]⟩, none, [],
        [⟨"ERR", "could not load include, file not found",
          valueStr (sanitizeToken "x.sfz"), "INPUT"⟩]⟩
      [.header "region"] :=
  (C7_include_failures noCheck [] (fun _ _ => none)
    ⟨{ relPath := some "d" }, ⟨[], [], []⟩, none, [], []⟩
    "x.sfz" [.header "region"] "d" rfl rfl).1 rfl

/-- C8: validating the same input text twice, each run with a fresh
validator state and the same configuration, produces identical
diagnostics and an equal resulting document, for every possible initial
state of the process-wide rule-table cache — the only effect of the
second run's inherited cache is reusing the table the first run already
used or built. -/
theorem C8_revalidation_deterministic {α : Type} (build : Unit → α)
    (engine : α → String → Value → List Diag)
    (parseFn : String → List Item) (fs : Fs) (fuel : Nat) (cfg : Config)
    (cache : Option α) (s : String) :
    (validate_s build engine parseFn fs fuel cfg cache s).1
      = (validate_s build engine parseFn fs fuel cfg
          (validate_s build engine parseFn fs fuel cfg cache s).2 s).1 := by
  cases cache <;> rfl

end Sfzlint
